import Mathlib

/-!
Verification of the version-resolution and alias-database engine of the
`unladen` documentation-publishing tool, shallowly embedded from
`src/unladen/versions.py` and `src/unladen/refs.py`.

The rule engine matches refs against Python regular expressions via
`re.match` (anchored at the start of the string, trailing text allowed,
greedy backtracking).  The concrete patterns occurring in the rule sets
only use literal characters, `.` (any character except newline), `+`
(one or more, greedy), character classes such as `[0-9\.]`, and a single
capturing group, so the embedded regex syntax below covers exactly those
constructs; `x+` is represented as `x` followed by `x*`.
-/

namespace Unladen

/-- Abstract syntax of the regular-expression fragment used by the rules
in `versions.py` and `refs.py`. Group indices are assigned left to right
starting from 0, matching the 0-indexed placeholders of the templates. -/
inductive Re where
  | epsilon : Re
  | char : Char → Re
  | dot : Re
  | cls : List Char → Re
  | seq : Re → Re → Re
  | star : Re → Re
  | group : Nat → Re → Re
deriving Repr, DecidableEq

/-- A literal string as a regex (sequence of literal characters). -/
def lit (s : String) : Re :=
  s.data.foldr (fun c r => Re.seq (Re.char c) r) Re.epsilon

/-- Greedy one-or-more: `x+` is `x` followed by `x*`. -/
def Re.plus (r : Re) : Re := Re.seq r (Re.star r)

/-- Structural size of a regex, used to bound the matcher fuel. -/
def Re.size : Re → Nat
  | .epsilon => 1
  | .char _ => 1
  | .dot => 1
  | .cls _ => 1
  | .seq a b => a.size + b.size + 1
  | .star r => r.size + 1
  | .group _ r => r.size + 1

/-- Capture-group bindings recorded during a match. -/
abbrev Caps := List (Nat × String)

/-- Record a capture, overwriting any earlier binding of the same group. -/
def setCap (caps : Caps) (i : Nat) (s : String) : Caps :=
  (i, s) :: caps.filter (fun p => p.1 ≠ i)

/-- Look up the capture recorded for group `i`. -/
def lookupCap : Caps → Nat → Option String
  | [], _ => none
  | (j, s) :: rest, i => if j = i then some s else lookupCap rest i

/-- Backtracking matcher in continuation-passing style, implementing the
semantics of Python `re.match`: anchored at the start, trailing input
allowed (the final continuation accepts any remaining input), quantifiers
greedy, the first success in backtracking order wins, and a capture group
stores the substring consumed by its subexpression on the successful
path.  `fuel` strictly decreases on every recursive call; the top-level
wrapper supplies enough fuel that it is never exhausted for the patterns
of this code base (every starred subexpression of those patterns consumes
at least one character per iteration). -/
def matchAux : Nat → Re → List Char → Caps →
    (List Char → Caps → Option (List Char × Caps)) → Option (List Char × Caps)
  | 0, _, _, _, _ => none
  | fuel + 1, re, s, caps, k =>
    match re with
    | .epsilon => k s caps
    | .char c =>
      match s with
      | [] => none
      | x :: rest => if x = c then k rest caps else none
    | .dot =>
      match s with
      | [] => none
      | x :: rest => if x = Char.ofNat 10 then none else k rest caps
    | .cls cs =>
      match s with
      | [] => none
      | x :: rest => if cs.contains x then k rest caps else none
    | .seq a b =>
      matchAux fuel a s caps (fun s' caps' => matchAux fuel b s' caps' k)
    | .star r =>
      match matchAux fuel r s caps
          (fun s' caps' => matchAux fuel (Re.star r) s' caps' k) with
      | some res => some res
      | none => k s caps
    | .group i r =>
      matchAux fuel r s caps (fun s' caps' =>
        k s' (setCap caps' i (String.mk (s.take (s.length - s'.length)))))

/-- Fuel bound for `matchAux` on pattern `r` and input `s`. -/
def fuelFor (r : Re) (s : List Char) : Nat :=
  (r.size + 2) * (s.length + 2)

/-- `re.match(pattern, s)`: `some` capture bindings when the pattern
matches a prefix of `s`, `none` when it does not match. -/
def re_match (p : Re) (s : String) : Option Caps :=
  match matchAux (fuelFor p s.data) p s.data [] (fun _ caps => some ([], caps)) with
  | some (_, caps) => some caps
  | none => none

/-- Number of capture groups of a pattern (the length of Python
`result.groups()`). -/
def Re.numGroups : Re → Nat
  | .epsilon => 0
  | .char _ => 0
  | .dot => 0
  | .cls _ => 0
  | .seq a b => a.numGroups + b.numGroups
  | .star r => r.numGroups
  | .group _ r => r.numGroups + 1

/-- `result.groups()`: captures listed by group index; a group that never
matched is `none` (Python `None`). -/
def groupsFor (p : Re) (caps : Caps) : List (Option String) :=
  (List.range p.numGroups).map (fun i => lookupCap caps i)

def lbrace : Char := Char.ofNat 123
def rbrace : Char := Char.ofNat 125

/-- Digits to a natural number, for template placeholder indices. -/
def digitsToNat (ds : List Char) : Nat :=
  ds.foldl (fun n c => 10 * n + (c.toNat - 48)) 0

/-- One step of template formatting; `fuel` bounds the number of
characters consumed and the wrapper supplies `length + 1`. -/
def formatGo (gs : List (Option String)) : Nat → List Char → String
  | 0, _ => ""
  | _, [] => ""
  | fuel + 1, c :: rest =>
    if c = lbrace then
      let ds := rest.takeWhile (fun ch => ch.isDigit)
      match rest.drop ds.length with
      | r :: rest2 =>
        if r = rbrace ∧ ds ≠ [] then
          (match (gs.get? (digitsToNat ds)).join with
           | some s => s
           | none => "None") ++ formatGo gs fuel rest2
        else String.mk [c] ++ formatGo gs fuel rest
      | [] => String.mk [c] ++ formatGo gs fuel rest
    else String.mk [c] ++ formatGo gs fuel rest

/-- `fmt.format(*groups)` restricted to the `{i}` placeholders used by
the rule templates of this code base.  A placeholder whose group did not
participate in the match renders as Python would print `None`; an
out-of-range placeholder (an `IndexError` in Python, called a
configuration error surfaced by the caller in the documentation) is out
of the modelled scope and also renders as `None`. -/
def formatTemplate (fmt : String) (gs : List (Option String)) : String :=
  formatGo gs (fmt.data.length + 1) fmt.data

/-- A rule is a (pattern, template) pair; the pattern string of the
source is carried here in parsed form. -/
abbrev Rule := Re × String

/-- The pattern `refs/.+/(.+)` of `VERSION_RULES`. -/
def pat_version : Re :=
  Re.seq (lit "refs/")
    (Re.seq (Re.plus Re.dot)
      (Re.seq (Re.char (Char.ofNat 47)) (Re.group 0 (Re.plus Re.dot))))

/-- The characters of the class `[0-9\.]`. -/
def digitsDot : List Char :=
  ['0', '1', '2', '3', '4', '5', '6', '7', '8', '9', '.']

/-- The pattern `refs/tags/v[0-9\.]+` of the stable-alias rule. -/
def pat_stable : Re := Re.seq (lit "refs/tags/v") (Re.plus (Re.cls digitsDot))

/-- The pattern `refs/heads/main` of the latest-alias rule in `refs.py`. -/
def pat_main : Re := lit "refs/heads/main"

/-- `VERSION_RULES = (("refs/.+/(.+)", "{0}"),)` from `versions.py`. -/
def VERSION_RULES : List Rule := [(pat_version, "{0}")]

/-- `ALIAS_RULES = (("refs/tags/v[0-9\.]+", "stable"),)` from
`versions.py`; this is the default rule set of
`Database.update_aliases`. -/
def ALIAS_RULES : List Rule := [(pat_stable, "stable")]

/-- `DEFAULT_ALIAS_RULES` from `refs.py`: a latest-rule for the main
branch followed by the stable-rule for release tags. -/
def DEFAULT_ALIAS_RULES : List Rule :=
  [(pat_main, "latest"), (pat_stable, "stable")]

/-- The outcome of applying one rule: `fmt.format(*result.groups())`
when the pattern matches, `none` when it does not. -/
def ruleResult (r : Rule) (ref : String) : Option String :=
  (re_match r.1 ref).map (fun caps => formatTemplate r.2 (groupsFor r.1 caps))

/-- `_parse_ref` from `versions.py` (the rule engine; `refs.parse` in
`refs.py` is the same loop): try the rules in order and return the
formatted result of the first rule whose pattern matches, `None` when no
rule matches. -/
def _parse_ref (ref : String) (rules : List Rule) : Option String :=
  match rules with
  | [] => none
  | r :: rest =>
    match ruleResult r ref with
    | some s => some s
    | none => _parse_ref ref rest

/-- Split a character list at every dot, like Python `str.split(".")`:
the empty input gives one empty segment. -/
def splitDots : List Char → List (List Char)
  | [] => [[]]
  | c :: rest =>
    if c = '.' then [] :: splitDots rest
    else
      match splitDots rest with
      | s :: ss => (c :: s) :: ss
      | [] => [[c]]

/-- Join segments with dots, the inverse direction of `splitDots`. -/
def joinDots : List (List Char) → List Char
  | [] => []
  | [s] => s
  | s :: ss => s ++ '.' :: joinDots ss

/-- Strip the leading zeros of an all-digit segment, keeping at least
one digit. -/
def stripZeros (p : List Char) : List Char :=
  match p.dropWhile (fun c => c = '0') with
  | [] => ['0']
  | q => q

/-- Modelled from the spec: `_normalize_version` in `versions.py`
delegates to `packaging.version.Version`, an external library that is
not part of this repository.  Per the specification of the Version
Normalizer, it parses a semantic/PEP-440-style version identifier and
returns its canonical string form, and returns the input unchanged when
parsing fails.  This model covers the shapes exercised by the rule sets
of this repository: an optional leading `v` or `V` followed by
dot-separated all-digit release segments is canonicalized (the `v`
prefix dropped, leading zeros of each segment stripped); every other
string falls through unchanged. -/
def _normalize_version (raw : String) : String :=
  let body := match raw.data with
    | c :: rest => if c = 'v' ∨ c = 'V' then rest else raw.data
    | [] => raw.data
  let parts := splitDots body
  if parts.all (fun p => p ≠ [] ∧ p.all Char.isDigit) then
    String.mk (joinDots (parts.map stripZeros))
  else
    raw

/-- The `Version` record of `versions.py`: a NamedTuple with fields
`ref`, `version`, `name`, `path` and `active` (whose NamedTuple default
is `True`). -/
structure Version where
  ref : String
  version : String
  name : String
  path : String
  active : Bool
deriving Repr, DecidableEq

/-- `Version.__eq__`: identity by `ref` alone (when comparing two
Version records, both sides always have a `ref` attribute, so the
NotImplemented branch of the source never fires). -/
def Version.eq (a b : Version) : Bool := a.ref == b.ref

/-- Python string `<`: plain lexicographic comparison of the character
sequences by code point, in executable form. -/
def strLtB : List Char → List Char → Bool
  | _, [] => false
  | [], _ :: _ => true
  | a :: as, b :: bs =>
    if a < b then true else if b < a then false else strLtB as bs

/-- `Version.__lt__`: ordering by the `version` string alone, using the
plain lexicographic string order. -/
def Version.lt (a b : Version) : Bool := strLtB a.version.data b.version.data

/-- A version object of a persisted snapshot: which of the five keys are
present, and the (already JSON-decoded) value of each present key. -/
structure VersionData where
  ref : Option String
  version : Option String
  name : Option String
  path : Option String
  active : Option Bool
deriving Repr, DecidableEq

/-- Errors raised while loading a snapshot: a `KeyError` on a missing
dictionary key. -/
inductive LoadError where
  | keyError : String → LoadError
deriving Repr, DecidableEq

/-- `Version.load`: reads `data["ref"]`, `data["version"]`,
`data["name"]`, `data["path"]` and `data["active"]` by direct indexing,
so each of the five keys raises `KeyError` when absent. -/
def Version.load (d : VersionData) : Except LoadError Version :=
  match d.ref with
  | none => Except.error (LoadError.keyError "ref")
  | some r =>
    match d.version with
    | none => Except.error (LoadError.keyError "version")
    | some v =>
      match d.name with
      | none => Except.error (LoadError.keyError "name")
      | some n =>
        match d.path with
        | none => Except.error (LoadError.keyError "path")
        | some p =>
          match d.active with
          | none => Except.error (LoadError.keyError "active")
          | some a => Except.ok (Version.mk r v n p a)

/-- The error raised by `parse` (`ValueError` in the source, named
`InvalidRefError` in the error taxonomy of the documentation): the named
field could not be resolved from the ref. -/
inductive ParseError where
  | invalidRef : String → String → ParseError
deriving Repr, DecidableEq

/-- `name_rules if name_rules else version_rules`: an omitted (`None`)
or empty rule list falls back to the version rules. -/
def fallbackRules (rules : Option (List Rule)) (dflt : List Rule) : List Rule :=
  match rules with
  | some rs => if rs.isEmpty then dflt else rs
  | none => dflt

/-- `parse` from `versions.py`: resolve `version`, `name` and `path`
from the ref, failing on the first resolution that yields no match;
`name` and `path` fall back to the version rules when their own rule
sets are omitted; the version-rule result is normalized, `name` and
`path` are stored unnormalized, and `active` takes its default `True`. -/
def parse (ref : String) (version_rules : List Rule)
    (name_rules path_rules : Option (List Rule)) : Except ParseError Version :=
  match _parse_ref ref version_rules with
  | none => Except.error (ParseError.invalidRef "version" ref)
  | some version =>
    match _parse_ref ref (fallbackRules name_rules version_rules) with
    | none => Except.error (ParseError.invalidRef "name" ref)
    | some name =>
      match _parse_ref ref (fallbackRules path_rules version_rules) with
      | none => Except.error (ParseError.invalidRef "path" ref)
      | some path =>
        Except.ok (Version.mk ref (_normalize_version version) name path true)

/-- The value of `parse` at a ref known to resolve, for building
databases in concrete scenarios (the fallback record is never reached
there). -/
def parseOr (ref : String) : Version :=
  match parse ref VERSION_RULES none none with
  | Except.ok v => v
  | Except.error _ => Version.mk ref "" "" "" true

/-- The observable contents of a `Database`: the `ref → Version` dict
as its list of values in insertion order (keys are the `ref` fields and
are unique), and the alias dict as an insertion-ordered association
list. -/
structure Database where
  versions : List Version
  aliases : List (String × String)
deriving Repr, DecidableEq

/-- `self.versions[version.ref] = version`: dict upsert by `ref` — an
existing key keeps its position and gets the new value, a new key is
appended. -/
def upsert (l : List Version) (v : Version) : List Version :=
  if l.any (fun w => w.ref == v.ref) then
    l.map (fun w => if w.ref == v.ref then v else w)
  else
    l ++ [v]

/-- `Database.add_version`. -/
def Database.add_version (db : Database) (v : Version) : Database :=
  Database.mk (upsert db.versions v) db.aliases

/-- Insert into a descending-sorted list, after all elements not below
the new one: the stable descending sort of the source
(`sorted(self.versions.values(), reverse=True)`) keeps elements that
compare equal in their original order. -/
def insertDesc : List Version → Version → List Version
  | [], v => [v]
  | w :: ws, v => if Version.lt w v then v :: w :: ws else w :: insertDesc ws v

/-- Stable descending sort by `Version.__lt__`. -/
def sortDesc (l : List Version) : List Version := l.foldl insertDesc []

/-- One iteration of the alias recomputation loop: resolve the ref of
one version against the rules, and bind the resulting alias name to the
ref if the name is truthy (non-empty) and not yet claimed in this pass
(`if name and name not in matches`). -/
def aliasStep (rules : List Rule) (m : List (String × String)) (v : Version) :
    List (String × String) :=
  match _parse_ref v.ref rules with
  | none => m
  | some name =>
    if name = "" then m
    else if m.any (fun p => p.1 == name) then m
    else m ++ [(name, v.ref)]

/-- `Database.update_aliases`: with no rules given the default
`ALIAS_RULES` is used; versions are walked in descending version order
and each alias is claimed by the first version whose ref resolves to it;
the whole prior alias mapping is replaced by the result. -/
def Database.update_aliases (db : Database) (rules : Option (List Rule)) :
    Database :=
  let rs := match rules with
    | some r => r
    | none => ALIAS_RULES
  Database.mk db.versions ((sortDesc db.versions).foldl (aliasStep rs) [])

/-- `Database.__getitem__`: dict lookup by ref; `none` models the
`KeyError` raised on an absent key. -/
def Database.getitem (db : Database) (r : String) : Option Version :=
  db.versions.find? (fun v => v.ref == r)

/-- A persisted snapshot as decoded from JSON: the `versions` list and
the `aliases` mapping. -/
structure Snapshot where
  versions : List VersionData
  aliases : List (String × String)
deriving Repr, DecidableEq

/-- `Database.load`: decode every version object (the first `KeyError`
propagates), key the results by `ref`, and take the alias mapping as
is. -/
def Database.loadSnap (s : Snapshot) : Except LoadError Database :=
  match s.versions.mapM Version.load with
  | Except.error e => Except.error e
  | Except.ok vs => Except.ok (Database.mk (vs.foldl upsert []) s.aliases)

/-- An empty database built with explicit fresh dicts, as in
`Database(versions={...}, aliases={...})` with explicit arguments. -/
def emptyDb : Database := Database.mk [] []

/-- A database built by `add_version` over freshly parsed refs, starting
from explicitly supplied empty dicts. -/
def mkDb (refs : List String) : Database :=
  refs.foldl (fun db r => db.add_version (parseOr r)) emptyDb

/-!
Heap model of `Database` instances.  `Database.__init__` is declared
with mutable default arguments (`versions: Dict[str, Version] = {}`,
`aliases: Dict[str, str] = {}`): Python evaluates the two `{}` literals
once, when the `def` is executed at class-definition time, and every
call that omits an argument binds the attribute to that same shared
dict object.  To express this, dict objects live in an explicit heap
and a `Database` instance holds object ids. -/

/-- The heap of dict objects reachable from `Database` instances:
versions dicts and alias dicts, addressed by position. -/
structure Heap where
  vdicts : List (List Version)
  adicts : List (List (String × String))
deriving Repr, DecidableEq

/-- The heap right after the module was imported: the two default dict
objects of `Database.__init__` exist (ids 0) and are empty. -/
def Heap.load : Heap := Heap.mk [[]] [[]]

/-- A `Database` instance: object ids of the dicts bound to
`self.versions` and `self.aliases`. -/
structure DatabaseRef where
  versionsId : Nat
  aliasesId : Nat
deriving Repr, DecidableEq

def Heap.getV (h : Heap) (i : Nat) : List Version := h.vdicts.getD i []

def Heap.setV (h : Heap) (i : Nat) (d : List Version) : Heap :=
  Heap.mk (h.vdicts.set i d) h.adicts

/-- `Database()` with both arguments omitted: the new instance binds
`self.versions` and `self.aliases` to the module-level default dict
objects; no dict is allocated. -/
def newDefaultDb (h : Heap) : DatabaseRef × Heap := (DatabaseRef.mk 0 0, h)

/-- `Database(versions={...}, aliases={...})` with explicit dict
literals: two fresh dict objects are allocated for this instance. -/
def newExplicitDb (vs : List Version) (al : List (String × String))
    (h : Heap) : DatabaseRef × Heap :=
  (DatabaseRef.mk h.vdicts.length h.adicts.length,
    Heap.mk (h.vdicts ++ [vs]) (h.adicts ++ [al]))

/-- `add_version` through an instance: mutates the versions dict object
the instance references, in place. -/
def DatabaseRef.add_version_h (db : DatabaseRef) (v : Version) (h : Heap) :
    Heap :=
  h.setV db.versionsId (upsert (h.getV db.versionsId) v)

/-- `update_aliases` through an instance: reads the referenced versions
dict, computes the new alias mapping, and rebinds `self.aliases` to a
freshly allocated dict holding it (the statement `self.aliases =
matches` rebinds the attribute rather than mutating the old object). -/
def DatabaseRef.update_aliases_h (db : DatabaseRef)
    (rules : Option (List Rule)) (h : Heap) : DatabaseRef × Heap :=
  let computed :=
    ((Database.mk (h.getV db.versionsId) []).update_aliases rules).aliases
  (DatabaseRef.mk db.versionsId h.adicts.length,
    Heap.mk h.vdicts (h.adicts ++ [computed]))

/-- The contents of `self.versions` as observed through an instance. -/
def DatabaseRef.versionsView (db : DatabaseRef) (h : Heap) : List Version :=
  h.getV db.versionsId

/-- The Version produced by parsing `refs/heads/main` with the default
rules. -/
def mainVersion : Version := parseOr "refs/heads/main"

/-- Scenario for the shared-default-dict behaviour: construct a first
no-argument `Database`, add one version through it, then construct a
second no-argument `Database`. -/
def c9_db1 : DatabaseRef := (newDefaultDb Heap.load).1

def c9_h1 : Heap := (newDefaultDb Heap.load).2

def c9_h2 : Heap := c9_db1.add_version_h mainVersion c9_h1

def c9_db2 : DatabaseRef := (newDefaultDb c9_h2).1

def c9_h3 : Heap := (newDefaultDb c9_h2).2

/-! Order facts about the embedded string comparison. -/

theorem strLtB_nil_right (s : List Char) : strLtB s [] = false := by
  cases s <;> rfl

theorem strLtB_irrefl (s : List Char) : strLtB s s = false := by
  induction s with
  | nil => rfl
  | cons a as ih => simp [strLtB, lt_irrefl, ih]

theorem strLtB_asymm (s t : List Char) (h : strLtB s t = true) :
    strLtB t s = false := by
  induction s generalizing t with
  | nil =>
    cases t with
    | nil => exact absurd h (by simp [strLtB])
    | cons b bs => exact strLtB_nil_right _
  | cons a as ih =>
    cases t with
    | nil => exact absurd h (by simp [strLtB_nil_right])
    | cons b bs =>
      by_cases hab : a < b
      · have hba : ¬ b < a := lt_asymm hab
        simp [strLtB, hab, hba]
      · by_cases hba : b < a
        · simp [strLtB, hab, hba] at h
        · have := ih bs (by simpa [strLtB, hab, hba] using h)
          simp [strLtB, hab, hba, this]

theorem strLtB_trans (s t u : List Char) (h1 : strLtB s t = true)
    (h2 : strLtB t u = true) : strLtB s u = true := by
  induction s generalizing t u with
  | nil =>
    cases u with
    | nil =>
      cases t with
      | nil => exact h1
      | cons b bs => simp [strLtB_nil_right] at h2
    | cons c cs => simp [strLtB]
  | cons a as ih =>
    cases t with
    | nil => simp [strLtB_nil_right] at h1
    | cons b bs =>
      cases u with
      | nil => simp [strLtB_nil_right] at h2
      | cons c cs =>
        by_cases hab : a < b <;> by_cases hbc : b < c
        · have hac : a < c := lt_trans hab hbc
          simp [strLtB, hac]
        · by_cases hcb : c < b
          · simp [strLtB, hbc, hcb] at h2
          · have hbc' : b = c := le_antisymm (not_lt.mp hcb) (not_lt.mp hbc)
            subst hbc'
            simp [strLtB, hab]
        · by_cases hba : b < a
          · simp [strLtB, hab, hba] at h1
          · have hab' : a = b := le_antisymm (not_lt.mp hba) (not_lt.mp hab)
            subst hab'
            simp [strLtB, hbc]
        · by_cases hba : b < a
          · simp [strLtB, hab, hba] at h1
          · have hab' : a = b := le_antisymm (not_lt.mp hba) (not_lt.mp hab)
            subst hab'
            by_cases hca : c < a
            · simp [strLtB, hbc, hca] at h2
            · have hac : a = c := le_antisymm (not_lt.mp hca) (not_lt.mp hbc)
              subst hac
              have h1' : strLtB as bs = true := by simpa [strLtB, lt_irrefl] using h1
              have h2' : strLtB bs cs = true := by simpa [strLtB, lt_irrefl] using h2
              simp [strLtB, lt_irrefl, ih bs cs h1' h2']

/-- The executable comparison agrees with the lexicographic order on
character lists. -/
theorem strLtB_iff_lex (s t : List Char) :
    strLtB s t = true ↔ List.Lex (· < ·) s t := by
  induction s generalizing t with
  | nil =>
    cases t with
    | nil =>
      constructor
      · intro h; simp [strLtB] at h
      · intro h; cases h
    | cons b bs =>
      constructor
      · intro _; exact List.Lex.nil
      · intro _; rfl
  | cons a as ih =>
    cases t with
    | nil =>
      constructor
      · intro h; simp [strLtB_nil_right] at h
      · intro h; cases h
    | cons b bs =>
      by_cases hab : a < b
      · constructor
        · intro _; exact List.Lex.rel hab
        · intro _; simp [strLtB, hab]
      · by_cases hba : b < a
        · constructor
          · intro h; simp [strLtB, hab, hba] at h
          · intro h
            cases h with
            | cons h' => exact absurd hba (lt_irrefl a)
            | rel h' => exact absurd h' hab
        · have hab' : a = b := le_antisymm (not_lt.mp hba) (not_lt.mp hab)
          subst hab'
          constructor
          · intro h
            exact List.Lex.cons ((ih bs).mp (by simpa [strLtB, lt_irrefl] using h))
          · intro h
            cases h with
            | cons h' => simpa [strLtB, lt_irrefl] using (ih bs).mpr h'
            | rel h' => exact absurd h' (lt_irrefl a)

/-- The embedded `Version.__lt__` agrees with the standard string
order. -/
theorem version_lt_iff (a b : Version) :
    Version.lt a b = true ↔ a.version < b.version := by
  rw [Version.lt, strLtB_iff_lex, String.lt_iff_toList_lt]
  exact Iff.rfl

theorem version_lt_irrefl (a : Version) : Version.lt a a = false :=
  strLtB_irrefl _

theorem version_lt_asymm {a b : Version} (h : Version.lt a b = true) :
    Version.lt b a = false :=
  strLtB_asymm _ _ h

theorem version_lt_trans {a b c : Version} (h1 : Version.lt a b = true)
    (h2 : Version.lt b c = true) : Version.lt a c = true :=
  strLtB_trans _ _ _ h1 h2

/-! Facts about the stable descending sort of `update_aliases`. -/

theorem length_insertDesc (l : List Version) (v : Version) :
    (insertDesc l v).length = l.length + 1 := by
  induction l with
  | nil => rfl
  | cons w ws ih =>
    by_cases h : Version.lt w v = true
    · simp [insertDesc, h]
    · simp [insertDesc, h, ih]

theorem mem_insertDesc {x v : Version} {l : List Version} :
    x ∈ insertDesc l v ↔ x ∈ l ∨ x = v := by
  induction l with
  | nil => simp [insertDesc]
  | cons w ws ih =>
    by_cases h : Version.lt w v = true
    · simp [insertDesc, h]
      tauto
    · simp [insertDesc, h, ih]
      tauto

theorem length_sortAux (l : List Version) :
    ∀ acc : List Version,
      (l.foldl insertDesc acc).length = acc.length + l.length := by
  induction l with
  | nil => intro acc; rfl
  | cons v vs ih =>
    intro acc
    have := ih (insertDesc acc v)
    simp [List.foldl_cons, this, length_insertDesc]
    omega

theorem mem_sortAux {x : Version} (l : List Version) :
    ∀ acc : List Version, x ∈ l.foldl insertDesc acc ↔ x ∈ acc ∨ x ∈ l := by
  induction l with
  | nil => intro acc; simp
  | cons v vs ih =>
    intro acc
    rw [List.foldl_cons, ih (insertDesc acc v)]
    simp [mem_insertDesc]
    tauto

theorem mem_sortDesc {x : Version} {l : List Version} :
    x ∈ sortDesc l ↔ x ∈ l := by
  rw [sortDesc, mem_sortAux]
  simp

theorem length_sortDesc (l : List Version) :
    (sortDesc l).length = l.length := by
  rw [sortDesc, length_sortAux]
  simp

theorem pairwise_insertDesc {l : List Version} {v : Version}
    (h : l.Pairwise (fun a b => Version.lt a b = false)) :
    (insertDesc l v).Pairwise (fun a b => Version.lt a b = false) := by
  induction l with
  | nil => simp [insertDesc]
  | cons w ws ih =>
    rcases List.pairwise_cons.mp h with ⟨hw, hws⟩
    by_cases hlt : Version.lt w v = true
    · rw [insertDesc, if_pos hlt]
      refine List.pairwise_cons.mpr ⟨?_, h⟩
      intro x hx
      rcases List.mem_cons.mp hx with rfl | hxs
      · exact version_lt_asymm hlt
      · rcases Bool.eq_false_or_eq_true (Version.lt v x) with hvx | hvx
        · exact absurd (version_lt_trans hlt hvx) (by simp [hw x hxs])
        · exact hvx
    · rw [insertDesc, if_neg hlt]
      refine List.pairwise_cons.mpr ⟨?_, ih hws⟩
      intro x hx
      rcases mem_insertDesc.mp hx with hxs | rfl
      · exact hw x hxs
      · exact eq_false_of_ne_true hlt

theorem pairwise_sortAux (l : List Version) :
    ∀ acc : List Version,
      acc.Pairwise (fun a b => Version.lt a b = false) →
      (l.foldl insertDesc acc).Pairwise (fun a b => Version.lt a b = false) := by
  induction l with
  | nil => intro acc hacc; exact hacc
  | cons v vs ih =>
    intro acc hacc
    exact ih (insertDesc acc v) (pairwise_insertDesc hacc)

theorem pairwise_sortDesc (l : List Version) :
    (sortDesc l).Pairwise (fun a b => Version.lt a b = false) :=
  pairwise_sortAux l [] List.Pairwise.nil

/-- The head of the descending sort of a nonempty list is a version of
the list that no version of the list exceeds. -/
theorem sortDesc_head_spec {l : List Version} (h : l ≠ []) :
    ∃ m rest, sortDesc l = m :: rest ∧ m ∈ l ∧
      ∀ w ∈ l, Version.lt m w = false := by
  cases hs : sortDesc l with
  | nil =>
    exact absurd (length_sortDesc l ▸ congrArg List.length hs)
      (by simpa using List.length_pos.mpr h |>.ne'
        )
  | cons m rest =>
    refine ⟨m, rest, rfl, ?_, ?_⟩
    · exact mem_sortDesc.mp (hs ▸ List.mem_cons_self m rest)
    · intro w hw
      have hw' : w ∈ m :: rest := hs ▸ mem_sortDesc.mpr hw
      rcases List.mem_cons.mp hw' with rfl | hw''
      · exact version_lt_irrefl _
      · have := pairwise_sortDesc l
        rw [hs] at this
        exact (List.pairwise_cons.mp this).1 w hw''

/-! Facts about the alias-recomputation fold. -/

theorem aliasFold_claimed (l : List Version) :
    ∀ m : List (String × String),
      (∀ v ∈ l, _parse_ref v.ref ALIAS_RULES = some "stable") →
      m.any (fun p => p.1 == "stable") = true →
      l.foldl (aliasStep ALIAS_RULES) m = m := by
  induction l with
  | nil => intro m _ _; rfl
  | cons v vs ih =>
    intro m hall hm
    have hv := hall v (List.mem_cons_self v vs)
    have hstep : aliasStep ALIAS_RULES m v = m := by
      simp only [aliasStep, hv]
      rw [if_neg (by decide : ¬ ("stable" : String) = "")]
      exact if_pos hm
    rw [List.foldl_cons, hstep]
    exact ih m (fun w hw => hall w (List.mem_cons_of_mem v hw)) hm

theorem aliasFold_mem (l : List Version) :
    ∀ (m : List (String × String)) (rules : List Rule) (p : String × String),
      p ∈ l.foldl (aliasStep rules) m →
      p ∈ m ∨ ∃ v, v ∈ l ∧ p.2 = v.ref := by
  induction l with
  | nil => intro m rules p hp; exact Or.inl hp
  | cons v vs ih =>
    intro m rules p hp
    rw [List.foldl_cons] at hp
    rcases ih (aliasStep rules m v) rules p hp with hstep | ⟨w, hw, hr⟩
    · rcases hmatch : _parse_ref v.ref rules with _ | name
      · simp only [aliasStep, hmatch] at hstep
        exact Or.inl hstep
      · simp only [aliasStep, hmatch] at hstep
        by_cases h0 : name = ""
        · rw [if_pos h0] at hstep
          exact Or.inl hstep
        · rw [if_neg h0] at hstep
          by_cases hcl : m.any (fun q => q.1 == name) = true
          · rw [if_pos hcl] at hstep
            exact Or.inl hstep
          · rw [if_neg hcl] at hstep
            rcases List.mem_append.mp hstep with hpm | hpv
            · exact Or.inl hpm
            · refine Or.inr ⟨v, List.mem_cons_self v vs, ?_⟩
              have hpe : p = (name, v.ref) := by simpa using hpv
              rw [hpe]
    · exact Or.inr ⟨w, List.mem_cons_of_mem v hw, hr⟩

theorem find?_isSome_of_mem {l : List Version} {r : String}
    (h : ∃ v, v ∈ l ∧ r = v.ref) :
    (l.find? (fun v => v.ref == r)).isSome = true := by
  rcases h with ⟨v, hv, hr⟩
  induction l with
  | nil => cases hv
  | cons w ws ih =>
    rw [List.find?]
    by_cases hw : (w.ref == r) = true
    · rw [hw]
      rfl
    · rw [Bool.eq_false_iff.mpr hw]
      rcases List.mem_cons.mp hv with rfl | hv'
      · exact absurd (by simp [hr]) hw
      · exact ih hv'

/-- The rule engine returns the result of the first matching rule:
whatever comes after that rule is never consulted. -/
theorem parse_ref_first_match (ref : String) (pre post : List Rule)
    (r : Rule) (hpre : ∀ q ∈ pre, re_match q.1 ref = none)
    (hr : (re_match r.1 ref).isSome = true) :
    _parse_ref ref (pre ++ r :: post) = ruleResult r ref := by
  induction pre with
  | nil =>
    rcases hm : re_match r.1 ref with _ | caps
    · rw [hm] at hr
      cases hr
    · simp [_parse_ref, ruleResult, hm]
  | cons q qs ih =>
    have hq : ruleResult q ref = none := by
      rw [ruleResult, hpre q (List.mem_cons_self q qs)]
      rfl
    have htail := ih (fun q' hq' => hpre q' (List.mem_cons_of_mem q hq'))
    simpa [_parse_ref, hq] using htail

/-- The three refs of the tie-break scenario, in each of the six
possible insertion orders. -/
def c2perms : List (List String) :=
  [["refs/tags/v0.1.0", "refs/tags/v0.1.2", "refs/tags/v0.0.1"],
   ["refs/tags/v0.1.0", "refs/tags/v0.0.1", "refs/tags/v0.1.2"],
   ["refs/tags/v0.1.2", "refs/tags/v0.1.0", "refs/tags/v0.0.1"],
   ["refs/tags/v0.1.2", "refs/tags/v0.0.1", "refs/tags/v0.1.0"],
   ["refs/tags/v0.0.1", "refs/tags/v0.1.0", "refs/tags/v0.1.2"],
   ["refs/tags/v0.0.1", "refs/tags/v0.1.2", "refs/tags/v0.1.0"]]

/-- The first of the six insertion orders, used as a concrete
instantiation. -/
def c2refs : List String :=
  ["refs/tags/v0.1.0", "refs/tags/v0.1.2", "refs/tags/v0.0.1"]

/-! The claims. -/

/-- C1: evaluation of the rule engine at the claimed boundary.  The
claim (and the test `test_release_candidate` of the repository) says
that `refs/tags/v0.1.0rc1` must not resolve to the alias `stable` under
the default alias rules, while `refs/tags/v0.1.0` must.  The code
disagrees on the first half: `re.match` anchors a pattern at the start
of the string but allows trailing text, so the pattern
`refs/tags/v[0-9\.]+` matches the prefix `refs/tags/v0.1.0` of the
pre-release tag and the pre-release ref also resolves to `stable`. -/
theorem c1_prerelease_eval :
    _parse_ref "refs/tags/v0.1.0rc1" ALIAS_RULES = some "stable" ∧
    _parse_ref "refs/tags/v0.1.0" ALIAS_RULES = some "stable" :=
  ⟨rfl, rfl⟩

/-- C2: whenever every version of the database has a ref matched by the
default stable rule, `update_aliases` with the default rules binds the
alias `stable` to the ref of a version that no version of the database
exceeds in the version order (the newest matching version, first claim
wins), the prior alias mapping is replaced wholesale (the result never
depends on it), and concretely the three tagged versions 0.1.0, 0.1.2
and 0.0.1 yield `stable -> refs/tags/v0.1.2` in each of the six
possible insertion orders. -/
theorem c2_update_aliases_newest :
    (∀ db : Database, db.versions ≠ [] →
      (∀ v ∈ db.versions, _parse_ref v.ref ALIAS_RULES = some "stable") →
      ∃ m, m ∈ db.versions ∧
        (db.update_aliases none).aliases = [("stable", m.ref)] ∧
        ∀ w ∈ db.versions, Version.lt m w = false) ∧
    (∀ (vs : List Version) (al al' : List (String × String))
        (rules : Option (List Rule)),
      ((Database.mk vs al).update_aliases rules).aliases =
        ((Database.mk vs al').update_aliases rules).aliases) ∧
    (∀ order ∈ c2perms,
      ((mkDb order).update_aliases none).aliases =
        [("stable", "refs/tags/v0.1.2")]) := by
  refine ⟨?_, fun vs al al' rules => rfl, by decide⟩
  intro db hne hall
  rcases sortDesc_head_spec hne with ⟨m, rest, hsort, hmem, hmax⟩
  refine ⟨m, hmem, ?_, hmax⟩
  show (sortDesc db.versions).foldl (aliasStep ALIAS_RULES) [] =
    [("stable", m.ref)]
  rw [hsort, List.foldl_cons]
  have hm1 : aliasStep ALIAS_RULES [] m = [("stable", m.ref)] := by
    simp only [aliasStep, hall m hmem]
    rw [if_neg (by decide : ¬ ("stable" : String) = "")]
    rfl
  rw [hm1]
  refine aliasFold_claimed rest [("stable", m.ref)] ?_ rfl
  intro v hv
  exact hall v (mem_sortDesc.mp (hsort ▸ List.mem_cons_of_mem m hv))

/-- C2 witness: the general statement instantiated at the concrete
database built from the three tagged refs. -/
theorem c2_update_aliases_newest_witness :
    (mkDb c2refs).versions ≠ [] ∧
    (∀ v ∈ (mkDb c2refs).versions,
      _parse_ref v.ref ALIAS_RULES = some "stable") ∧
    ∃ m, m ∈ (mkDb c2refs).versions ∧
      ((mkDb c2refs).update_aliases none).aliases = [("stable", m.ref)] ∧
      ∀ w ∈ (mkDb c2refs).versions, Version.lt m w = false :=
  ⟨by decide, by decide,
    c2_update_aliases_newest.1 (mkDb c2refs) (by decide) (by decide)⟩

/-- C3 counterexample: with the default rules of `update_aliases` (the
module constant `ALIAS_RULES` of `versions.py`), a database holding the
version for `refs/heads/main` gets no alias at all — in particular the
alias `latest` is not bound to `refs/heads/main`, contrary to the
claim. -/
theorem c3_latest_counterexample :
    ((mkDb ["refs/heads/main"]).update_aliases none).aliases = [] ∧
    ("latest", "refs/heads/main") ∉
      ((mkDb ["refs/heads/main"]).update_aliases none).aliases := by
  exact ⟨by decide, by decide⟩

/-- C3 amended: the rule set `DEFAULT_ALIAS_RULES` of `refs.py` does
contain a latest-rule for the main branch and a stable-rule for release
tags, but `update_aliases` called with no explicit rules uses
`ALIAS_RULES` of `versions.py`, which contains only the stable rule; a
database holding `refs/heads/main` therefore gets no alias under the
defaults, and gets `latest -> refs/heads/main` only when
`DEFAULT_ALIAS_RULES` is passed explicitly. -/
theorem c3_default_rules_amended :
    _parse_ref "refs/heads/main" ALIAS_RULES = none ∧
    ((mkDb ["refs/heads/main"]).update_aliases none).aliases = [] ∧
    _parse_ref "refs/heads/main" DEFAULT_ALIAS_RULES = some "latest" ∧
    _parse_ref "refs/tags/v0.1.0" DEFAULT_ALIAS_RULES = some "stable" ∧
    ((mkDb ["refs/heads/main"]).update_aliases
        (some DEFAULT_ALIAS_RULES)).aliases =
      [("latest", "refs/heads/main")] := by
  exact ⟨by decide, by decide, by decide, by decide, by decide⟩

/-- C4: equality of Version records is determined by `ref` alone (every
other field is ignored), ordering is determined by the `version` field
alone under the plain lexicographic string order, and consequently a
Version with version `0.10.0` orders strictly before one with version
`0.2.0`. -/
theorem c4_version_eq_lt :
    (∀ a b : Version,
      (Version.eq a b = true ↔ a.ref = b.ref) ∧
      (Version.lt a b = true ↔ a.version < b.version)) ∧
    Version.lt (Version.mk "refs/tags/v0.10.0" "0.10.0" "n1" "p1" true)
      (Version.mk "refs/tags/v0.2.0" "0.2.0" "n2" "p2" false) = true := by
  refine ⟨fun a b => ⟨?_, version_lt_iff a b⟩, by decide⟩
  simp [Version.eq]

/-- C4 witness: two records that differ in every field but `ref` are
equal under `Version.__eq__`. -/
theorem c4_version_eq_lt_witness :
    Version.eq (Version.mk "refs/heads/main" "1" "a" "b" true)
      (Version.mk "refs/heads/main" "2" "c" "d" false) = true :=
  (c4_version_eq_lt.1 _ _).1.mpr rfl

/-- C5: the rule engine resolves a ref to the template substitution of
the first rule whose pattern matches, and rules after the first match
are never consulted (the trailing rules are universally quantified);
the empty rule sequence always yields no result. -/
theorem c5_first_match_wins :
    (∀ ref : String, _parse_ref ref [] = none) ∧
    (∀ (pre post : List Rule) (r : Rule) (ref : String),
      (∀ q ∈ pre, re_match q.1 ref = none) →
      (re_match r.1 ref).isSome = true →
      _parse_ref ref (pre ++ r :: post) = ruleResult r ref ∧
        (ruleResult r ref).isSome = true) := by
  refine ⟨fun ref => rfl, fun pre post r ref hpre hr => ⟨?_, ?_⟩⟩
  · exact parse_ref_first_match ref pre post r hpre hr
  · rcases hm : re_match r.1 ref with _ | caps
    · rw [hm] at hr
      cases hr
    · rw [ruleResult, hm]
      rfl

/-- C5 witness: a rule list whose first rule does not match the ref,
whose second rule does, and whose third rule would also match but is
ignored: the second rule (the stable-alias rule) wins. -/
theorem c5_first_match_wins_witness :
    (∀ q ∈ ([(pat_main, "latest")] : List Rule),
      re_match q.1 "refs/tags/v1.0" = none) ∧
    (re_match pat_stable "refs/tags/v1.0").isSome = true ∧
    _parse_ref "refs/tags/v1.0"
        ([(pat_main, "latest")] ++ ((pat_stable, "stable") : Rule) ::
          VERSION_RULES) =
      some "stable" := by
  refine ⟨by decide, by decide, ?_⟩
  have h := c5_first_match_wins.2 [(pat_main, "latest")] VERSION_RULES
    (pat_stable, "stable") "refs/tags/v1.0" (by decide) (by decide)
  exact h.1.trans (by decide)

/-- C6: with the default rule sets, `refs/heads/main` parses to the
Version record with version, name and path all `main` and active true,
and `refs/tags/v0.1.0` parses to a Version whose version field is the
normalized `0.1.0` while name and path keep the unnormalized
`v0.1.0`. -/
theorem c6_parse_default_rules :
    parse "refs/heads/main" VERSION_RULES none none =
      Except.ok (Version.mk "refs/heads/main" "main" "main" "main" true) ∧
    parse "refs/tags/v0.1.0" VERSION_RULES none none =
      Except.ok
        (Version.mk "refs/tags/v0.1.0" "0.1.0" "v0.1.0" "v0.1.0" true) :=
  ⟨rfl, rfl⟩

/-- C7: `parse` fails exactly when at least one of the three
resolutions (version, and name and path after their fallback to the
version rules) yields no match; an omitted name or path rule set falls
back to the version rules; and the unrecognized ref fails with the
invalid-ref error under the default version rules. -/
theorem c7_parse_invalid_ref :
    (∀ (ref : String) (vr : List Rule) (nr pr : Option (List Rule)),
      (∃ e, parse ref vr nr pr = Except.error e) ↔
        (_parse_ref ref vr = none ∨
         _parse_ref ref (fallbackRules nr vr) = none ∨
         _parse_ref ref (fallbackRules pr vr) = none)) ∧
    (∀ vr : List Rule, fallbackRules none vr = vr) ∧
    parse "un/recognized/ref" VERSION_RULES none none =
      Except.error (ParseError.invalidRef "version" "un/recognized/ref") := by
  refine ⟨?_, fun vr => rfl, rfl⟩
  intro ref vr nr pr
  constructor
  · rintro ⟨e, he⟩
    rcases h1 : _parse_ref ref vr with _ | v1
    · exact Or.inl rfl
    · rcases h2 : _parse_ref ref (fallbackRules nr vr) with _ | v2
      · exact Or.inr (Or.inl rfl)
      · rcases h3 : _parse_ref ref (fallbackRules pr vr) with _ | v3
        · exact Or.inr (Or.inr rfl)
        · simp only [parse, h1, h2, h3] at he
          exact Except.noConfusion he
  · intro h
    rcases h with h1 | h2 | h3
    · exact ⟨ParseError.invalidRef "version" ref, by simp only [parse, h1]⟩
    · rcases hv : _parse_ref ref vr with _ | v1
      · exact ⟨ParseError.invalidRef "version" ref, by simp only [parse, hv]⟩
      · exact ⟨ParseError.invalidRef "name" ref,
          by simp only [parse, hv, h2]⟩
    · rcases hv : _parse_ref ref vr with _ | v1
      · exact ⟨ParseError.invalidRef "version" ref, by simp only [parse, hv]⟩
      · rcases hn : _parse_ref ref (fallbackRules nr vr) with _ | v2
        · exact ⟨ParseError.invalidRef "name" ref,
            by simp only [parse, hv, hn]⟩
        · exact ⟨ParseError.invalidRef "path" ref,
            by simp only [parse, hv, hn, h3]⟩

/-- C7 witness: the characterization instantiated at the unrecognized
ref with the default rules. -/
theorem c7_parse_invalid_ref_witness :
    ∃ e, parse "un/recognized/ref" VERSION_RULES none none =
      Except.error e :=
  (c7_parse_invalid_ref.1 "un/recognized/ref" VERSION_RULES none none).mpr
    (Or.inl (by decide))

/-- C8 counterexample: a snapshot version object that has the four
string fields but no `active` field is rejected with a `KeyError` on
`active` — both by `Version.load` and through `Database.load` — rather
than accepted with `active` defaulted to true as the claim states. -/
theorem c8_active_counterexample :
    Version.load
        (VersionData.mk (some "refs/tags/v0.0.1") (some "0.0.1")
          (some "v0.0.1") (some "v0.0.1") none) =
      Except.error (LoadError.keyError "active") ∧
    Database.loadSnap
        (Snapshot.mk
          [VersionData.mk (some "refs/tags/v0.0.1") (some "0.0.1")
            (some "v0.0.1") (some "v0.0.1") none] []) =
      Except.error (LoadError.keyError "active") :=
  ⟨rfl, rfl⟩

/-- C8 amended: on load all five fields including `active` are
required — a version object lacking `active` fails with a `KeyError`
(the NamedTuple default `active = True` applies only to directly
constructed records, not to `Version.load`), and a version object with
all five fields loads to exactly the record with those fields. -/
theorem c8_load_requires_active :
    (∀ r v n p : String,
      Version.load (VersionData.mk (some r) (some v) (some n) (some p)
          none) =
        Except.error (LoadError.keyError "active")) ∧
    (∀ (r v n p : String) (a : Bool),
      Version.load (VersionData.mk (some r) (some v) (some n) (some p)
          (some a)) =
        Except.ok (Version.mk r v n p a)) :=
  ⟨fun _ _ _ _ => rfl, fun _ _ _ _ _ => rfl⟩

/-- C9: evaluation of the shared-default-argument behaviour.  The two
`{}` defaults of `Database.__init__` are evaluated once at class
definition time, so every `Database()` constructed with no arguments
references the same dict objects: after `add_version` of the
main-branch version through a first no-argument instance, a second
no-argument instance references the very same versions dict and
observes the added version instead of starting empty, contrary to the
claim. -/
theorem c9_shared_default_dicts :
    c9_db2.versionsView c9_h3 = [mainVersion] ∧
    c9_db2.versionsId = c9_db1.versionsId ∧
    c9_db2.versionsView c9_h3 = c9_db1.versionsView c9_h3 := by
  exact ⟨by decide, rfl, rfl⟩

/-- C10: right after any call to `update_aliases`, with any rule set,
every alias of the resulting alias mapping is bound to the ref of a
version present in the version mapping, so looking the target up in the
database succeeds — aliases produced by the recomputation never
dangle. -/
theorem c10_aliases_never_dangle :
    ∀ (db : Database) (rules : Option (List Rule)) (p : String × String),
      p ∈ (db.update_aliases rules).aliases →
      ((db.update_aliases rules).getitem p.2).isSome = true := by
  intro db rules p hp
  rcases aliasFold_mem (sortDesc db.versions) [] _ p hp with h0 | ⟨v, hv, hr⟩
  · cases h0
  · exact find?_isSome_of_mem ⟨v, mem_sortDesc.mp hv, hr⟩

/-- C10 witness: the invariant instantiated at a concrete database and
the default rules. -/
theorem c10_aliases_never_dangle_witness :
    (("stable", "refs/tags/v0.1.0") ∈
      ((mkDb ["refs/tags/v0.1.0"]).update_aliases none).aliases) ∧
    (((mkDb ["refs/tags/v0.1.0"]).update_aliases none).getitem
        "refs/tags/v0.1.0").isSome = true :=
  ⟨by decide,
    c10_aliases_never_dangle (mkDb ["refs/tags/v0.1.0"]) none
      ("stable", "refs/tags/v0.1.0") (by decide)⟩

end Unladen

